import Mathlib

/-!
Verification of the SteamOS_Extract repack engine (repack_steamOS.py /
grepack_steamOS.py / img2dsk*.py), shallowly embedded in Lean 4.

A partition's top-level listing is modelled as a `List Entry` in the
directory-iteration order (`Path.iterdir`); a partition's file contents as a
map `String → Option α`.  External probes (`file -b`) are modelled by the
`FileKind` stored in each entry; external commands that can fail are modelled
with explicit failure oracles.
-/

namespace SteamOS

/-- Content type of a file as probed by `file -b` in `is_squashfs` /
`is_ext_image`: either a squashfs signature, an ext2/ext3/ext4 signature, or
anything else (including a failed probe, which both helpers report as
`False`). -/
inductive FileKind where
  | squashfs
  | ext
  | other
deriving DecidableEq, Repr

/-- A top-level directory entry of a mounted partition: its name, whether it
is a regular file (`Path.is_file`), its `stat().st_size`, its probed content
kind, and its byte content. -/
structure Entry where
  name : String
  isFile : Bool
  size : Nat
  kind : FileKind
  content : List Nat
deriving DecidableEq, Repr

/-- The regular files of a partition's top level:
`[p for p in mnt.iterdir() if p.is_file()]`. -/
def regularFiles (es : List Entry) : List Entry :=
  es.filter (fun e => e.isFile)

/-- The preferred-name scan shared by `detect_existing_inner` and
`replace_nested_image_in_partition`:
`for nm in names: cand = mnt / nm; if cand.exists() and cand.is_file(): ...` —
the first name that denotes an existing regular file wins. -/
def findPreferred (es : List Entry) : List String → Option Entry
  | [] => none
  | nm :: rest =>
    match es.find? (fun e => e.name == nm && e.isFile) with
    | some e => some e
    | none => findPreferred es rest

/-- Python's `max(files, key=lambda p: p.stat().st_size)`: the first entry of
maximal size in iteration order (`max` keeps the earlier element on ties). -/
def maxBySize : List Entry → Option Entry
  | [] => none
  | e :: es => some (es.foldl (fun b x => if x.size > b.size then x else b) e)

/-- `is_squashfs`: the `file -b` output contains "squashfs". -/
def is_squashfs (e : Entry) : Bool := e.kind == .squashfs

/-- `is_ext_image`: the `file -b` output contains "ext2"/"ext3"/"ext4". -/
def is_ext_image (e : Entry) : Bool := e.kind == .ext

/-- `detect_existing_inner(part_dev, preferred_names)` on a mounted
partition listing: try each preferred name in order and return it (with its
squashfs flag) as soon as one exists as a regular file; otherwise take the
largest regular file and return it only if it probes as squashfs or
ext2/3/4; otherwise `(None, False)` (direct filesystem). -/
def detect_existing_inner (es : List Entry) (preferred : List String) :
    Option (Entry × Bool) :=
  match findPreferred es preferred with
  | some e => some (e, is_squashfs e)
  | none =>
    match maxBySize (regularFiles es) with
    | some e =>
      if is_squashfs e || is_ext_image e then some (e, is_squashfs e) else none
    | none => none

/-- The resolved replacement target of `replace_nested_image_in_partition`:
either an existing file of the partition, or a fresh name to create. -/
inductive Target where
  | existing (e : Entry)
  | fresh (name : String)
deriving DecidableEq, Repr

/-- Target resolution in `replace_nested_image_in_partition`: first
preferred name that exists as a regular file; else the largest regular file;
else a fresh file named after `name_candidates[0]` (the source indexes the
list, which is non-empty at every call site; the empty case is given the
default name ""). -/
def replace_resolve (es : List Entry) (cands : List String) : Target :=
  match findPreferred es cands with
  | some e => .existing e
  | none =>
    match maxBySize (regularFiles es) with
    | some e => .existing e
    | none => .fresh (cands.headD "")

/-- The name the replacement will be installed at. -/
def Target.name : Target → String
  | .existing e => e.name
  | .fresh n => n

/-! ### Image sizing (`build_ext4_image`) -/

/-- `round_up(n, block) = ((n + block - 1) // block) * block`. -/
def round_up (n block : Nat) : Nat := ((n + block - 1) / block) * block

/-- The ext4 image size computed at the top of `build_ext4_image`:
`size = data + data // 6 + (64 << 20)`, clamped to at least `256 << 20`,
then rounded up to a multiple of `64 << 20`. -/
def build_ext4_size (data : Nat) : Nat :=
  round_up (max (data + data / 6 + (64 <<< 20)) (256 <<< 20)) (64 <<< 20)

/-! ### File-map view of a mounted partition

`Part α` maps a top-level file name to its content (`none` = no such file).
`replace_nested_image_in_partition` and `wipe_and_fill_partition_direct`
mutate the partition through this view. -/

def Part (α : Type) : Type := String → Option α

/-- `Path.unlink` / removal of the entry at name `n`. -/
def Part.erase {α : Type} (p : Part α) (n : String) : Part α :=
  fun m => if m = n then none else p m

/-- Creation or overwrite of the regular file at name `n` with content `c`. -/
def Part.write {α : Type} (p : Part α) (n : String) (c : α) : Part α :=
  fun m => if m = n then some c else p m

/-- `os.replace(src, dst)` / `Path.rename`: atomically move the file at
`src` over `dst`.  If `src` is absent the call would raise and the state is
unchanged. -/
def Part.renameOver {α : Type} (p : Part α) (src dst : String) : Part α :=
  match p src with
  | some c => (p.write dst c).erase src
  | none => p

/-- The content view of a partition listing: name ↦ content of the regular
file with that name, if any. -/
def toPart (es : List Entry) : Part (List Nat) :=
  fun n => (es.find? (fun e => e.name == n && e.isFile)).map (fun e => e.content)

/-! ### `replace_nested_image_in_partition`: the copy/rename tail

`tmp = target_path.with_suffix(target_path.suffix + ".tmp")` re-appends the
old suffix, so the temporary name is always `target ++ ".tmp"`.  The steps
after target resolution are: unlink a stale tmp, `shutil.copy2` the artifact
to tmp, `os.replace(tmp, target)`. -/

/-- The temporary name used alongside a target:
`target.with_suffix(target.suffix + ".tmp")`. -/
def tmpName (t : String) : String := t ++ ".tmp"

/-- State after `if tmp.exists(): tmp.unlink()`. -/
def rnip_afterUnlink (p : Part (List Nat)) (t : String) : Part (List Nat) :=
  p.erase (tmpName t)

/-- State while `shutil.copy2(new_inner, tmp)` has written the prefix `pre`
of the artifact (`pre = art` when the copy has completed). -/
def rnip_duringCopy (p : Part (List Nat)) (t : String) (pre : List Nat) :
    Part (List Nat) :=
  (rnip_afterUnlink p t).write (tmpName t) pre

/-- State after `os.replace(tmp, target_path)`: the completed call. -/
def rnip_commit (p : Part (List Nat)) (t : String) (art : List Nat) :
    Part (List Nat) :=
  (rnip_duringCopy p t art).renameOver (tmpName t) t

/-! ### `replace_nested_image_in_partition`: the free-space check

```
try:
    st = os.statvfs(mnt); free_bytes = st.f_bavail * st.f_frsize
    need = new_inner.stat().st_size
    if need > free_bytes + (target size if target exists else 0):
        raise RuntimeError("Not enough free space ...")
except Exception:
    pass   # best-effort; if statvfs fails we try copy anyway
```
The `except Exception` clause around the whole block also catches the
`RuntimeError` raised on insufficient space. -/

/-- Outcome of the `os.statvfs` probe: the available free bytes, or an
inspection failure (which raises). -/
inductive ProbeResult where
  | ok (freeBytes : Nat)
  | err
deriving DecidableEq, Repr

/-- The body of the `try` block: raises (`.error`) when `statvfs` fails or
when `need > free_bytes + oldSize`. -/
def space_check_body (probe : ProbeResult) (need oldSize : Nat) :
    Except String Unit :=
  match probe with
  | .err => .error "statvfs failed"
  | .ok free =>
    if need > free + oldSize then .error "Not enough free space" else .ok ()

/-- Whether `replace_nested_image_in_partition` goes on to perform the copy
after the space-check block: the `except Exception: pass` swallows every
exception of the body, so the copy is attempted in all cases. -/
def space_check_copyAttempted (probe : ProbeResult) (need oldSize : Nat) :
    Bool :=
  match space_check_body probe need oldSize with
  | .ok _ => true
  | .error _ => true

/-! ### `wipe_and_fill_partition_direct`

Mount read-write, delete every top-level entry except `lost+found`, then
`rsync -aAXH --numeric-ids src/ mnt/` (copies every top-level source entry
into the mount point, overwriting by name, deleting nothing). -/

/-- State after the deletion loop: only `lost+found` survives. -/
def wipe_except_lost_found {α : Type} (p : Part α) : Part α :=
  fun n => if n = "lost+found" then p n else none

/-- `wipe_and_fill_partition_direct` as a transformation of the partition's
top-level content view, given the source tree's top-level view `src`. -/
def wipe_and_fill {α : Type} (p : Part α) (src : Part α) : Part α :=
  fun n =>
    match src n with
    | some c => some c
    | none => wipe_except_lost_found p n

/-! ### `build_squashfs` / `build_ext4_image` as step sequences

Both builders stage their output at `out.with_suffix(out.suffix + ".tmp")`
(i.e. `out ++ ".tmp"`) and `tmp.rename(out_file)` only after the last step.
External steps run through `sh(..., check=True)` raise on a non-zero exit
(`mksquashfs`, `mkfs.ext4`, `mount`, `rsync`); `tune2fs` runs with
`check=False` and its failure is ignored.  A failure oracle `fail` says
which external steps exit non-zero. -/

/-- The external steps of the two builders. -/
inductive BuildStep where
  | mksquashfsStep
  | mkfsStep
  | tune2fsStep
  | mountLoopStep
  | rsyncStep
deriving DecidableEq, Repr

/-- Content of a file in the build working directory, tracking how far the
builder got: a sparse pre-allocation of `size` bytes, a formatted (empty)
filesystem, a tuned filesystem, a filesystem populated from `src`, a
complete squashfs of `src`, or the half-written junk a failing step leaves
behind. -/
inductive BuildContent where
  | sparse (size : Nat)
  | formatted (size : Nat)
  | tunedFs (size : Nat)
  | populatedFs (src : String) (size : Nat)
  | squashed (src : String)
  | incomplete (step : BuildStep)
deriving DecidableEq, Repr

/-- `build_squashfs(src_dir, out_file)` on the working-directory view `st`:
unlink a stale tmp, run `mksquashfs src tmp` (raises on failure, leaving at
most partial output at tmp), then `tmp.rename(out_file)`.  Returns the new
view and whether the call completed. -/
def build_squashfs_run (fail : BuildStep → Bool) (src out : String)
    (st : Part BuildContent) : Part BuildContent × Bool :=
  let tmp := tmpName out
  let st1 := st.erase tmp
  if fail .mksquashfsStep then
    (st1.write tmp (.incomplete .mksquashfsStep), false)
  else
    ((st1.write tmp (.squashed src)).renameOver tmp out, true)

/-- `build_ext4_image(src_dir, out_file, label)` on the working-directory
view `st`, for a source tree of `data` apparent bytes: unlink a stale tmp,
truncate tmp to `build_ext4_size data`, `mkfs.ext4` it (fatal on failure),
`tune2fs -m 0` (failure ignored), loop-mount it (fatal on failure), `rsync`
the source in (fatal on failure), then `tmp.rename(out_file)`. -/
def build_ext4_run (fail : BuildStep → Bool) (src out : String) (data : Nat)
    (st : Part BuildContent) : Part BuildContent × Bool :=
  let sz := build_ext4_size data
  let tmp := tmpName out
  let st1 := (st.erase tmp).write tmp (.sparse sz)
  if fail .mkfsStep then
    (st1.write tmp (.incomplete .mkfsStep), false)
  else
    let st2 := st1.write tmp (.formatted sz)
    let st3 := if fail .tune2fsStep then st2 else st2.write tmp (.tunedFs sz)
    if fail .mountLoopStep then
      (st3, false)
    else if fail .rsyncStep then
      (st3.write tmp (.incomplete .rsyncStep), false)
    else
      ((st3.write tmp (.populatedFs src sz)).renameOver tmp out, true)

/-! ### The `cleanup` finalizer

```
def cleanup():
    for m in reversed(mounts):
        try: umount(m)
        except Exception: pass
    for ld in reversed(loops):
        try: sh(["losetup", "-d", ld], check=False)
        except Exception: pass
    shutil.rmtree(workdir, ignore_errors=True)
```
The kernel-side state is the set of active mount points, the set of
attached loop devices, and whether the working directory still exists.
A failure oracle marks the teardown commands whose external invocation
fails; a failed command leaves the kernel state unchanged and is ignored
by `cleanup`. -/

/-- A teardown command issued by `cleanup`. -/
inductive TearCmd where
  | unmountCmd (m : String)
  | detachCmd (l : String)
  | rmWorkCmd
deriving DecidableEq, Repr

/-- Kernel-side resource state. -/
structure SysState where
  mounted : Finset String
  attached : Finset String
  workPresent : Bool
deriving DecidableEq

/-- Effect of one successful teardown command: `umount` removes the mount
point if mounted (no-op otherwise, `check=False`), `losetup -d` detaches the
loop device if attached, `rmtree` removes the working directory. -/
def execCmd (s : SysState) : TearCmd → SysState
  | .unmountCmd m => { s with mounted := s.mounted.erase m }
  | .detachCmd l => { s with attached := s.attached.erase l }
  | .rmWorkCmd => { s with workPresent := false }

/-- Effect of a teardown command under the failure oracle: a failing command
leaves the state unchanged (its exception is swallowed). -/
def execCmdB (fail : TearCmd → Bool) (s : SysState) (c : TearCmd) : SysState :=
  if fail c then s else execCmd s c

/-- The command sequence `cleanup` issues for registration lists `mounts`
and `loops`: every mount unmounted in reverse registration order, then
every loop detached in reverse order, then the working tree removed. -/
def cleanup_cmds (mounts loops : List String) : List TearCmd :=
  mounts.reverse.map .unmountCmd ++ loops.reverse.map .detachCmd ++ [.rmWorkCmd]

/-- `cleanup()` itself: the two reversed loops and the final `rmtree`,
executed under the failure oracle (every step best-effort). -/
def cleanup_exec (fail : TearCmd → Bool) (mounts loops : List String)
    (s : SysState) : SysState :=
  let s1 := mounts.reverse.foldl (fun st m => execCmdB fail st (.unmountCmd m)) s
  let s2 := loops.reverse.foldl (fun st l => execCmdB fail st (.detachCmd l)) s1
  execCmdB fail s2 .rmWorkCmd

/-! ### The `repack` orchestrator as an action trace

`repack(old_img, root_tree, out_img, include_var, include_home)` is modelled
as the sequence of externally visible actions it performs, each carrying the
image or directory it operates on.  Partitions `p3`/`p4`/`p5` are views of
the loop device attached to the output image, so every partition action
carries the output image path. -/

/-- An externally visible step of `repack`. -/
inductive Action where
  | copyImage (src dst : String)
  | attachLoop (img : String)
  | resolvePart (img : String) (idx : Nat)
  | buildSquashfsArt (work : String) (idx : Nat)
  | buildExtArt (work : String) (idx : Nat)
  | replaceNested (img : String) (idx : Nat)
  | wipeFill (img : String) (idx : Nat)
  | warn (msg : String)
  | syncAll
deriving DecidableEq, Repr

/-- Inputs the `repack` control flow branches on: the detection outcome of
each partition (partition 4/5 outcomes are consulted only when that step
runs) and whether the source tree has `var` / `home` subtrees. -/
structure RepackEnv where
  det3 : Option (Entry × Bool)
  det4 : Option (Entry × Bool)
  det5 : Option (Entry × Bool)
  hasVar : Bool
  hasHome : Bool
deriving Repr

/-- The `RepackOptions` dataclass of grepack_steamOS.py (`include_var`,
`include_home`; the CLI flags `--no-var`/`--no-home` negate them). -/
structure RepackOptions where
  include_var : Bool := true
  include_home : Bool := true
deriving DecidableEq, Repr

/-- The var (idx = 4) / home (idx = 5) step of `repack`: resolve, build an
ext4 artifact, then replace the nested file or wipe-and-fill directly,
depending on the detection outcome. -/
def repack_subtree_steps (out work : String) (idx : Nat)
    (det : Option (Entry × Bool)) : List Action :=
  [.resolvePart out idx, .buildExtArt work idx]
    ++ (if det.isSome then [.replaceNested out idx] else [.wipeFill out idx])

/-- The rootfs step of `repack` (partition 3): resolve, build a squashfs
artifact when the detected nested file probed as squashfs (else an ext4
artifact), then replace the nested file or wipe-and-fill directly. -/
def repack_root_steps (out work : String) (det3 : Option (Entry × Bool)) :
    List Action :=
  [Action.resolvePart out 3]
    ++ (match det3 with
        | some (_, wasSq) =>
          if wasSq then [Action.buildSquashfsArt work 3]
          else [Action.buildExtArt work 3]
        | none => [Action.buildExtArt work 3])
    ++ (if det3.isSome then [Action.replaceNested out 3]
        else [Action.wipeFill out 3])

/-- The var step of `repack`: skipped entirely when disabled by the
options; a warning (and nothing else) when the source tree has no `var`
subtree. -/
def repack_var_steps (opts : RepackOptions) (env : RepackEnv)
    (out work : String) : List Action :=
  if opts.include_var then
    if env.hasVar then repack_subtree_steps out work 4 env.det4
    else [Action.warn "var tree not found"]
  else []

/-- The home step of `repack`: skipped entirely when disabled by the
options; a warning (and nothing else) when the source tree has no `home`
subtree. -/
def repack_home_steps (opts : RepackOptions) (env : RepackEnv)
    (out work : String) : List Action :=
  if opts.include_home then
    if env.hasHome then repack_subtree_steps out work 5 env.det5
    else [Action.warn "home tree not found"]
  else []

/-- The full action trace of `repack`: copy the old image to the output
path, attach a loop device to the output copy, process the rootfs
(partition 3), then var (partition 4) and home (partition 5) — each only
when enabled and when its subtree exists in the source tree, an absent
subtree producing a warning — and finally sync. -/
def repack_trace (opts : RepackOptions) (env : RepackEnv)
    (old out work : String) : List Action :=
  [Action.copyImage old out, .attachLoop out]
    ++ repack_root_steps out work env.det3
    ++ repack_var_steps opts env out work
    ++ repack_home_steps opts env out work
    ++ [Action.syncAll]

/-- Whether an action resolves, mounts or writes partition `idx` of the
output image. -/
def touchesPart (a : Action) (idx : Nat) : Bool :=
  match a with
  | .resolvePart _ i => i == idx
  | .replaceNested _ i => i == idx
  | .wipeFill _ i => i == idx
  | _ => false

/-- The files an action may write to: the copy writes its destination,
partition actions write (only) the attached output image, artifact builds
write (only) the working directory; attaching, warning and syncing write
nothing. -/
def pathsWritten : Action → List String
  | .copyImage _ dst => [dst]
  | .attachLoop _ => []
  | .resolvePart img _ => [img]
  | .buildSquashfsArt work _ => [work]
  | .buildExtArt work _ => [work]
  | .replaceNested img _ => [img]
  | .wipeFill img _ => [img]
  | .warn _ => []
  | .syncAll => []

/-- The candidate file of the classification claim: the first existing
regular file among the preferred names, or else the largest top-level
regular file.  This is the shared front of `detect_existing_inner` and
`replace_nested_image_in_partition`. -/
def claimCandidate (es : List Entry) (preferred : List String) : Option Entry :=
  match findPreferred es preferred with
  | some e => some e
  | none => maxBySize (regularFiles es)

/-- Per-partition view of the repack state: partition index ↦ content map. -/
def PartsState : Type := Nat → Part (List Nat)

/-! ### Concrete sample data used by counterexamples and witnesses -/

/-- A regular file carrying a preferred name whose content probes as neither
squashfs nor ext (e.g. a stray text file named `rootfs-A.img`). -/
def exOtherEntry : Entry := ⟨"rootfs-A.img", true, 5, .other, [0]⟩

/-- A regular file with an unrecognized name and unrecognized content. -/
def exDataEntry : Entry := ⟨"data.bin", true, 9, .other, [1]⟩

/-- An ext4 nested image named `a.img`. -/
def entryA : Entry := ⟨"a.img", true, 1, .ext, [1]⟩

/-- An unrelated regular file that happens to sit at the temporary name
`a.img.tmp`. -/
def entryATmp : Entry := ⟨"a.img.tmp", true, 1, .other, [2]⟩

/-! ## Helper lemmas -/

theorem round_up_spec (n b : Nat) (hb : 0 < b) :
    round_up n b % b = 0 ∧ n ≤ round_up n b ∧ round_up n b < n + b := by
  refine ⟨Nat.mul_mod_left _ _, ?_, ?_⟩ <;>
  · unfold round_up
    have h := Nat.div_add_mod (n + b - 1) b
    have hr : (n + b - 1) % b < b := Nat.mod_lt _ hb
    rw [Nat.mul_comm]
    omega

theorem tmpName_ne (t : String) : tmpName t ≠ t := by
  intro h
  have hlen := congrArg String.length h
  rw [tmpName, String.length_append] at hlen
  have h4 : (".tmp" : String).length = 4 := rfl
  rw [h4] at hlen
  omega

theorem findPreferred_mem {es : List Entry} {names : List String} {e : Entry}
    (h : findPreferred es names = some e) : e ∈ es ∧ e.isFile = true := by
  induction names with
  | nil => simp [findPreferred] at h
  | cons nm rest ih =>
    rw [findPreferred] at h
    cases hf : es.find? (fun x => x.name == nm && x.isFile) with
    | some x =>
      rw [hf] at h
      cases h
      have hmem := List.mem_of_find?_eq_some hf
      have hpred := List.find?_some hf
      rw [Bool.and_eq_true] at hpred
      exact ⟨hmem, hpred.2⟩
    | none =>
      rw [hf] at h
      exact ih h

theorem findPreferred_of_no_files {es : List Entry} {names : List String}
    (h : regularFiles es = []) : findPreferred es names = none := by
  cases hf : findPreferred es names with
  | none => rfl
  | some e =>
    obtain ⟨hmem, hfile⟩ := findPreferred_mem hf
    have : e ∈ regularFiles es := List.mem_filter.mpr ⟨hmem, hfile⟩
    rw [h] at this
    simp at this

/-- When the detector reports a nested file, the replacement step resolves
the same file (shared by the refinement and frame claims). -/
theorem detect_some_resolve {es : List Entry} {cands : List String}
    {e : Entry} {b : Bool} (h : detect_existing_inner es cands = some (e, b)) :
    replace_resolve es cands = .existing e := by
  rw [detect_existing_inner] at h
  rw [replace_resolve]
  cases hf : findPreferred es cands with
  | some x =>
    simp only [hf, Option.some.injEq, Prod.mk.injEq] at h ⊢
    obtain ⟨rfl, -⟩ := h
    rfl
  | none =>
    simp only [hf] at h ⊢
    cases hm : maxBySize (regularFiles es) with
    | none => simp [hm] at h
    | some x =>
      simp only [hm] at h ⊢
      by_cases hk : (is_squashfs x || is_ext_image x) = true
      · rw [if_pos hk] at h
        simp only [Option.some.injEq, Prod.mk.injEq] at h
        obtain ⟨rfl, -⟩ := h
        rfl
      · rw [if_neg hk] at h
        exact Option.noConfusion h

/-! ## Claims -/

/-- C1 (counterexample): a regular file named by the first preferred name
whose content probes as neither squashfs nor ext2/3/4 is the candidate, yet
`detect_existing_inner` does not report a direct filesystem — it returns
the candidate's path (with the squashfs flag false) without probing for
ext. -/
theorem C1_counterexample :
    claimCandidate [exOtherEntry] ["rootfs-A.img"] = some exOtherEntry
      ∧ exOtherEntry.kind ≠ .squashfs
      ∧ exOtherEntry.kind ≠ .ext
      ∧ detect_existing_inner [exOtherEntry] ["rootfs-A.img"]
          = some (exOtherEntry, false) := by
  decide

/-- C1 (amended): a candidate found under a preferred name is always
reported as a nested image, with the squashfs flag set exactly when it
probes as squashfs (so a preferred-name candidate matching neither squashfs
nor ext is reported as a nested ext image, not as a direct filesystem);
only for a candidate found by the largest-file fallback does a probe
matching neither squashfs nor ext2/3/4 yield the direct-filesystem result,
while a squashfs fallback candidate yields the squashfs classification and
an ext fallback candidate the ext classification. -/
theorem C1_classification (es : List Entry) (preferred : List String)
    (e : Entry) :
    (findPreferred es preferred = some e →
      detect_existing_inner es preferred = some (e, e.kind == .squashfs))
    ∧ (findPreferred es preferred = none →
        maxBySize (regularFiles es) = some e →
        (e.kind = .squashfs →
            detect_existing_inner es preferred = some (e, true))
        ∧ (e.kind = .ext →
            detect_existing_inner es preferred = some (e, false))
        ∧ (e.kind = .other →
            detect_existing_inner es preferred = none)) := by
  constructor
  · intro hf
    rw [detect_existing_inner, hf]
    rfl
  · intro hf hm
    rw [detect_existing_inner, hf, hm]
    refine ⟨?_, ?_, ?_⟩ <;> intro hk <;> simp [is_squashfs, is_ext_image, hk]

/-- C1 (witness): the amended classification evaluated at a partition whose
only file is an unrecognized `data.bin` (fallback candidate, kind `other`):
the result is the direct-filesystem report. -/
theorem C1_classification_witness :
    detect_existing_inner [exDataEntry] ["rootfs-A.img"] = none :=
  ((C1_classification [exDataEntry] ["rootfs-A.img"] exDataEntry).2
    (by decide) (by decide)).2.2 (by decide)

/-- C4: `build_ext4_image` pre-allocates exactly
`round_up(max(D + D/6 + 64MiB, 256MiB), 64MiB)` bytes — a multiple of 64MiB
that is at least the clamped size and less than one 64MiB block above it
(i.e. the next 64MiB multiple at or above the clamp) — and a zero-byte
source tree yields exactly a 256MiB image. -/
theorem C4_sizing (D : Nat) :
    build_ext4_size D % (64 <<< 20) = 0
    ∧ max (D + D / 6 + (64 <<< 20)) (256 <<< 20) ≤ build_ext4_size D
    ∧ build_ext4_size D
        < max (D + D / 6 + (64 <<< 20)) (256 <<< 20) + (64 <<< 20)
    ∧ build_ext4_size 0 = 256 <<< 20 := by
  have h := round_up_spec (max (D + D / 6 + (64 <<< 20)) (256 <<< 20))
    (64 <<< 20) (by decide)
  exact ⟨h.1, h.2.1, h.2.2, by decide⟩

/-- C6: whenever the detector identifies a nested file, the
target-resolution step of `replace_nested_image_in_partition` on the same
partition listing and candidate list selects exactly that file; and on a
partition with no regular files at all, it targets a fresh file named after
the first preferred-name candidate. -/
theorem C6_resolution_refines (es : List Entry) (cands : List String)
    (e : Entry) (b : Bool) (c : String) (hc : cands.head? = some c) :
    (detect_existing_inner es cands = some (e, b) →
      replace_resolve es cands = .existing e)
    ∧ (regularFiles es = [] → replace_resolve es cands = .fresh c) := by
  constructor
  · exact detect_some_resolve
  · intro hempty
    rw [replace_resolve, findPreferred_of_no_files hempty, hempty]
    cases cands with
    | nil => cases hc
    | cons x xs =>
      cases hc
      rfl

/-- C6 (witness): on a one-file partition holding the ext image `a.img`
the detector and the replacement step agree on `a.img`; on an empty
partition the replacement targets the first candidate name. -/
theorem C6_resolution_refines_witness :
    replace_resolve [entryA] ["a.img"] = .existing entryA
    ∧ replace_resolve [] ["a.img"] = .fresh "a.img" :=
  ⟨(C6_resolution_refines [entryA] ["a.img"] entryA false "a.img"
      (by decide)).1 (by decide),
   (C6_resolution_refines [] ["a.img"] entryA false "a.img"
      (by decide)).2 (by decide)⟩

/-- C2 (code bug): with a successful free-space probe reporting 0 free
bytes, no file being overwritten, and a 1-byte artifact, the body of the
space check raises the insufficient-space error — but the surrounding
`except Exception: pass` swallows it, so the copy is attempted; indeed the
copy is attempted for every probe outcome, and the operation never fails
with an insufficient-space error. -/
theorem C2_space_check_swallowed :
    space_check_body (.ok 0) 1 0 = .error "Not enough free space"
    ∧ space_check_copyAttempted (.ok 0) 1 0 = true
    ∧ ∀ (probe : ProbeResult) (need oldSize : Nat),
        space_check_copyAttempted probe need oldSize = true := by
  refine ⟨by rfl, by rfl, ?_⟩
  intro probe need oldSize
  rw [space_check_copyAttempted]
  cases space_check_body probe need oldSize <;> rfl

/-- Pointwise value of the completed
`replace_nested_image_in_partition` copy/rename tail: the temporary name
ends absent, the target holds the artifact, everything else is unchanged. -/
theorem rnip_commit_eval (p : Part (List Nat)) (t : String) (art : List Nat) :
    rnip_commit p t art = fun n =>
      if n = tmpName t then none else if n = t then some art else p n := by
  funext n
  by_cases h1 : n = tmpName t <;> by_cases h2 : n = t <;>
    simp [rnip_commit, rnip_duringCopy, rnip_afterUnlink, Part.renameOver,
      Part.write, Part.erase, h1, h2]

/-- C3 (counterexample): a partition holding the nested ext image `a.img`
(so it is classified as a nested ext image) together with an unrelated file
at the temporary name `a.img.tmp`: the completed replacement resolves
`a.img` as its target, yet the other file `a.img.tmp` is not byte-identical
after the call — the operation unlinks it and renames over it. -/
theorem C3_counterexample :
    detect_existing_inner [entryA, entryATmp] ["a.img"] = some (entryA, false)
    ∧ (replace_resolve [entryA, entryATmp] ["a.img"]).name = "a.img"
    ∧ ("a.img.tmp" : String) ≠ "a.img"
    ∧ rnip_commit (toPart [entryA, entryATmp]) "a.img" [9] "a.img.tmp"
        ≠ toPart [entryA, entryATmp] "a.img.tmp" := by
  decide

/-- C3 (amended): for a partition classified as holding a nested image, the
completed replacement call changes only the resolved target file and the
temporary name `target ++ ".tmp"` (which ends absent); every other file is
byte-identical to before the call; the target itself holds the full
artifact after the rename, and at every intermediate step of the protocol
(after the stale-tmp unlink and at every point during the copy) the target
name still holds exactly its old content — never a partially written
replacement. -/
theorem C3_frame (es : List Entry) (cands : List String) (e : Entry)
    (b : Bool) (art : List Nat)
    (hdet : detect_existing_inner es cands = some (e, b)) :
    (replace_resolve es cands).name = e.name
    ∧ (∀ n, n ≠ e.name → n ≠ tmpName e.name →
        rnip_commit (toPart es) e.name art n = toPart es n)
    ∧ rnip_commit (toPart es) e.name art (tmpName e.name) = none
    ∧ rnip_commit (toPart es) e.name art e.name = some art
    ∧ rnip_afterUnlink (toPart es) e.name e.name = toPart es e.name
    ∧ (∀ pre, rnip_duringCopy (toPart es) e.name pre e.name
        = toPart es e.name) := by
  have htn : ¬(e.name = tmpName e.name) := fun h => tmpName_ne _ h.symm
  refine ⟨?_, ?_, ?_, ?_, ?_, ?_⟩
  · rw [detect_some_resolve hdet]
    rfl
  · intro n hn1 hn2
    rw [rnip_commit_eval]
    simp [hn1, hn2]
  · rw [rnip_commit_eval]
    simp
  · rw [rnip_commit_eval]
    simp [htn]
  · simp [rnip_afterUnlink, Part.erase, htn]
  · intro pre
    simp [rnip_duringCopy, rnip_afterUnlink, Part.write, Part.erase, htn]

/-- C3 (witness): the amended frame property evaluated on the concrete
partition `[a.img, a.img.tmp]` with artifact `[9]`. -/
theorem C3_frame_witness :
    (replace_resolve [entryA, entryATmp] ["a.img"]).name = entryA.name
    ∧ (∀ n, n ≠ entryA.name → n ≠ tmpName entryA.name →
        rnip_commit (toPart [entryA, entryATmp]) entryA.name [9] n
          = toPart [entryA, entryATmp] n)
    ∧ rnip_commit (toPart [entryA, entryATmp]) entryA.name [9]
        (tmpName entryA.name) = none
    ∧ rnip_commit (toPart [entryA, entryATmp]) entryA.name [9] entryA.name
        = some [9]
    ∧ rnip_afterUnlink (toPart [entryA, entryATmp]) entryA.name entryA.name
        = toPart [entryA, entryATmp] entryA.name
    ∧ (∀ pre, rnip_duringCopy (toPart [entryA, entryATmp]) entryA.name pre
        entryA.name = toPart [entryA, entryATmp] entryA.name) :=
  C3_frame [entryA, entryATmp] ["a.img"] entryA false [9] (by decide)

/-- A partition holding a recovery directory and a stale file. -/
def pSample : Part (List Nat) := fun n =>
  if n = "lost+found" then some [0]
  else if n = "old.txt" then some [7]
  else none

/-- A source tree with one top-level file. -/
def srcSample : Part (List Nat) := fun n =>
  if n = "new.bin" then some [9] else none

/-- C7: after `wipe_and_fill_partition_direct` the partition holds exactly
the source tree's top-level contents plus the preserved `lost+found`
recovery directory: every name other than `lost+found` carries exactly the
source's content (so every pre-existing top-level entry other than
`lost+found` has been deleted), `lost+found` is never deleted, and when the
source has no `lost+found` entry it is left exactly as it was. -/
theorem C7_wipe_fill (p src : Part (List Nat)) :
    (∀ n, n ≠ "lost+found" → wipe_and_fill p src n = src n)
    ∧ (p "lost+found" ≠ none → wipe_and_fill p src "lost+found" ≠ none)
    ∧ (src "lost+found" = none →
        wipe_and_fill p src "lost+found" = p "lost+found") := by
  refine ⟨?_, ?_, ?_⟩
  · intro n hn
    cases hs : src n with
    | some c => simp [wipe_and_fill, hs]
    | none => simp [wipe_and_fill, wipe_except_lost_found, hs, hn]
  · intro hp
    cases hs : src "lost+found" with
    | some c => simp [wipe_and_fill, hs]
    | none =>
      simpa [wipe_and_fill, wipe_except_lost_found, hs] using hp
  · intro hs
    simp [wipe_and_fill, wipe_except_lost_found, hs]

/-- C7 (witness): on the sample partition and source, the old top-level
file is gone and replaced by the source view, the new file is present, and
the recovery directory is untouched. -/
theorem C7_wipe_fill_witness :
    wipe_and_fill pSample srcSample "old.txt" = srcSample "old.txt"
    ∧ wipe_and_fill pSample srcSample "new.bin" = srcSample "new.bin"
    ∧ wipe_and_fill pSample srcSample "lost+found" = pSample "lost+found" :=
  ⟨(C7_wipe_fill pSample srcSample).1 "old.txt" (by decide),
   (C7_wipe_fill pSample srcSample).1 "new.bin" (by decide),
   (C7_wipe_fill pSample srcSample).2.2 (by decide)⟩

/-- C5: both builders stage at the temporary name `out ++ ".tmp"`, which is
distinct from the final name, touch no other file of the working directory,
and rename into the final path only on success: whenever any fatal external
step (`mksquashfs`, `mkfs.ext4`, `mount`, `rsync`) fails, the final path is
byte-identical to before the call — any leftover sits only at the
temporary name — while a successful run installs the completed artifact at
the final path. -/
theorem C5_atomic_builds (fail : BuildStep → Bool) (src out : String)
    (data : Nat) (st : Part BuildContent) :
    tmpName out ≠ out
    ∧ (∀ q, q ≠ out → q ≠ tmpName out →
        (build_squashfs_run fail src out st).1 q = st q)
    ∧ ((build_squashfs_run fail src out st).2 = false →
        (build_squashfs_run fail src out st).1 out = st out)
    ∧ ((build_squashfs_run fail src out st).2 = true →
        (build_squashfs_run fail src out st).1 out = some (.squashed src))
    ∧ (∀ q, q ≠ out → q ≠ tmpName out →
        (build_ext4_run fail src out data st).1 q = st q)
    ∧ ((build_ext4_run fail src out data st).2 = false →
        (build_ext4_run fail src out data st).1 out = st out)
    ∧ ((build_ext4_run fail src out data st).2 = true →
        (build_ext4_run fail src out data st).1 out
          = some (.populatedFs src (build_ext4_size data))) := by
  have hot : ¬(out = tmpName out) := fun h => tmpName_ne _ h.symm
  refine ⟨tmpName_ne out, ?_, ?_, ?_, ?_, ?_, ?_⟩
  · intro q hq1 hq2
    by_cases h1 : fail BuildStep.mksquashfsStep <;>
      simp [build_squashfs_run, Part.write, Part.erase, Part.renameOver,
        h1, hq1, hq2]
  · intro hfail
    by_cases h1 : fail BuildStep.mksquashfsStep
    · simp [build_squashfs_run, Part.write, Part.erase, h1, hot]
    · exfalso
      simp [build_squashfs_run, h1] at hfail
  · intro hsucc
    by_cases h1 : fail BuildStep.mksquashfsStep
    · exfalso
      simp [build_squashfs_run, h1] at hsucc
    · simp [build_squashfs_run, Part.write, Part.erase, Part.renameOver,
        h1, hot]
  · intro q hq1 hq2
    by_cases h1 : fail BuildStep.mkfsStep <;>
      by_cases h2 : fail BuildStep.tune2fsStep <;>
      by_cases h3 : fail BuildStep.mountLoopStep <;>
      by_cases h4 : fail BuildStep.rsyncStep <;>
      simp [build_ext4_run, Part.write, Part.erase, Part.renameOver,
        h1, h2, h3, h4, hq1, hq2]
  · intro hfail
    by_cases h1 : fail BuildStep.mkfsStep <;>
      by_cases h2 : fail BuildStep.tune2fsStep <;>
      by_cases h3 : fail BuildStep.mountLoopStep <;>
      by_cases h4 : fail BuildStep.rsyncStep <;>
      simp [build_ext4_run, Part.write, Part.erase, Part.renameOver,
        h1, h2, h3, h4, hot] <;>
      simp [build_ext4_run, h1, h2, h3, h4] at hfail
  · intro hsucc
    by_cases h1 : fail BuildStep.mkfsStep <;>
      by_cases h2 : fail BuildStep.tune2fsStep <;>
      by_cases h3 : fail BuildStep.mountLoopStep <;>
      by_cases h4 : fail BuildStep.rsyncStep <;>
      simp [build_ext4_run, Part.write, Part.erase, Part.renameOver,
        h1, h2, h3, h4, hot] <;>
      simp [build_ext4_run, h1, h2, h3, h4] at hsucc

/-- C5 (witness): the atomicity properties evaluated with a failing
`mkfs.ext4`, a failing `mksquashfs`, and an empty working directory: the
final path stays absent and only `art.img.tmp` differs. -/
theorem C5_atomic_builds_witness :
    (build_squashfs_run (fun _ => true) "src" "art.img"
      (fun _ => none)).1 "art.img" = (fun _ => (none : Option BuildContent)) "art.img"
    ∧ (build_ext4_run (fun _ => true) "src" "art.img" 0
      (fun _ => none)).1 "art.img" = (fun _ => (none : Option BuildContent)) "art.img"
    ∧ (build_ext4_run (fun _ => true) "src" "art.img" 0
      (fun _ => none)).1 "other.bin" = (fun _ => (none : Option BuildContent)) "other.bin" :=
  ⟨(C5_atomic_builds (fun _ => true) "src" "art.img" 0 (fun _ => none)).2.2.1
      (by rfl),
   (C5_atomic_builds (fun _ => true) "src" "art.img" 0 (fun _ => none)).2.2.2.2.2.1
      (by rfl),
   (C5_atomic_builds (fun _ => true) "src" "art.img" 0 (fun _ => none)).2.2.2.2.1
      "other.bin" (by decide) (by decide)⟩

/-! ### Helper lemmas for the `cleanup` finalizer -/

theorem unmount_foldl_attached (fail : TearCmd → Bool) (L : List String)
    (s : SysState) :
    (L.foldl (fun st m => execCmdB fail st (.unmountCmd m)) s).attached
      = s.attached := by
  induction L generalizing s with
  | nil => rfl
  | cons x L ih =>
    rw [List.foldl_cons, ih]
    by_cases h : fail (.unmountCmd x) <;> simp [execCmdB, execCmd, h]

theorem unmount_foldl_work (fail : TearCmd → Bool) (L : List String)
    (s : SysState) :
    (L.foldl (fun st m => execCmdB fail st (.unmountCmd m)) s).workPresent
      = s.workPresent := by
  induction L generalizing s with
  | nil => rfl
  | cons x L ih =>
    rw [List.foldl_cons, ih]
    by_cases h : fail (.unmountCmd x) <;> simp [execCmdB, execCmd, h]

theorem detach_foldl_mounted (fail : TearCmd → Bool) (L : List String)
    (s : SysState) :
    (L.foldl (fun st l => execCmdB fail st (.detachCmd l)) s).mounted
      = s.mounted := by
  induction L generalizing s with
  | nil => rfl
  | cons x L ih =>
    rw [List.foldl_cons, ih]
    by_cases h : fail (.detachCmd x) <;> simp [execCmdB, execCmd, h]

theorem detach_foldl_work (fail : TearCmd → Bool) (L : List String)
    (s : SysState) :
    (L.foldl (fun st l => execCmdB fail st (.detachCmd l)) s).workPresent
      = s.workPresent := by
  induction L generalizing s with
  | nil => rfl
  | cons x L ih =>
    rw [List.foldl_cons, ih]
    by_cases h : fail (.detachCmd x) <;> simp [execCmdB, execCmd, h]

theorem unmount_foldl_mounted_subset (fail : TearCmd → Bool) (L : List String)
    (s : SysState) :
    (L.foldl (fun st m => execCmdB fail st (.unmountCmd m)) s).mounted
      ⊆ s.mounted := by
  induction L generalizing s with
  | nil => exact Finset.Subset.refl _
  | cons x L ih =>
    rw [List.foldl_cons]
    refine (ih _).trans ?_
    by_cases h : fail (.unmountCmd x) <;>
      simp [execCmdB, execCmd, h, Finset.erase_subset]

theorem detach_foldl_attached_subset (fail : TearCmd → Bool) (L : List String)
    (s : SysState) :
    (L.foldl (fun st l => execCmdB fail st (.detachCmd l)) s).attached
      ⊆ s.attached := by
  induction L generalizing s with
  | nil => exact Finset.Subset.refl _
  | cons x L ih =>
    rw [List.foldl_cons]
    refine (ih _).trans ?_
    by_cases h : fail (.detachCmd x) <;>
      simp [execCmdB, execCmd, h, Finset.erase_subset]

theorem unmount_foldl_removes (fail : TearCmd → Bool) (L : List String)
    (s : SysState) (m : String) (hm : m ∈ L)
    (hf : fail (.unmountCmd m) = false) :
    m ∉ (L.foldl (fun st x => execCmdB fail st (.unmountCmd x)) s).mounted := by
  induction L generalizing s with
  | nil => cases hm
  | cons x L ih =>
    rw [List.foldl_cons]
    rcases List.mem_cons.mp hm with h | h
    · subst h
      intro hmem
      have := unmount_foldl_mounted_subset fail L
        (execCmdB fail s (.unmountCmd m)) hmem
      rw [execCmdB, hf] at this
      simp [execCmd, Finset.mem_erase] at this
    · exact ih _ h

theorem detach_foldl_removes (fail : TearCmd → Bool) (L : List String)
    (s : SysState) (l : String) (hl : l ∈ L)
    (hf : fail (.detachCmd l) = false) :
    l ∉ (L.foldl (fun st x => execCmdB fail st (.detachCmd x)) s).attached := by
  induction L generalizing s with
  | nil => cases hl
  | cons x L ih =>
    rw [List.foldl_cons]
    rcases List.mem_cons.mp hl with h | h
    · subst h
      intro hmem
      have := detach_foldl_attached_subset fail L
        (execCmdB fail s (.detachCmd l)) hmem
      rw [execCmdB, hf] at this
      simp [execCmd, Finset.mem_erase] at this
    · exact ih _ h

theorem unmount_foldl_nofail (L : List String) (s : SysState) :
    L.foldl (fun st m => execCmdB (fun _ => false) st (.unmountCmd m)) s
      = ⟨L.foldl (fun t m => t.erase m) s.mounted, s.attached,
          s.workPresent⟩ := by
  induction L generalizing s with
  | nil => rfl
  | cons x L ih =>
    rw [List.foldl_cons, List.foldl_cons, ih]
    simp [execCmdB, execCmd]

theorem detach_foldl_nofail (L : List String) (s : SysState) :
    L.foldl (fun st l => execCmdB (fun _ => false) st (.detachCmd l)) s
      = ⟨s.mounted, L.foldl (fun t l => t.erase l) s.attached,
          s.workPresent⟩ := by
  induction L generalizing s with
  | nil => rfl
  | cons x L ih =>
    rw [List.foldl_cons, List.foldl_cons, ih]
    simp [execCmdB, execCmd]

theorem erase_foldl_eq_sdiff (L : List String) (t : Finset String) :
    L.foldl (fun acc x => acc.erase x) t = t \ L.toFinset := by
  induction L generalizing t with
  | nil => simp
  | cons x L ih =>
    rw [List.foldl_cons, ih, Finset.erase_eq, List.toFinset_cons,
      Finset.insert_eq, sdiff_sdiff]
    rfl

theorem execCmdB_rmWork_mounted (fail : TearCmd → Bool) (s : SysState) :
    (execCmdB fail s .rmWorkCmd).mounted = s.mounted := by
  rw [execCmdB]
  split <;> rfl

theorem execCmdB_rmWork_attached (fail : TearCmd → Bool) (s : SysState) :
    (execCmdB fail s .rmWorkCmd).attached = s.attached := by
  rw [execCmdB]
  split <;> rfl

theorem cleanup_exec_nofail_eq (m l : List String) (s : SysState) :
    cleanup_exec (fun _ => false) m l s
      = ⟨s.mounted \ m.toFinset, s.attached \ l.toFinset, false⟩ := by
  simp only [cleanup_exec]
  rw [unmount_foldl_nofail, detach_foldl_nofail, erase_foldl_eq_sdiff,
    erase_foldl_eq_sdiff, List.toFinset_reverse, List.toFinset_reverse]
  rfl

/-- C9: the finalizer issues exactly the command sequence "every tracked
mount point unmounted in reverse registration order, then every tracked
loop device detached in reverse order, then the working tree removed";
every step is best-effort — the working tree is removed and each
non-failing unmount/detach takes effect no matter which other teardown
steps fail — and with no failures the finalizer is idempotent: a second
invocation leaves the system state exactly as the first left it. -/
theorem C9_cleanup (fail : TearCmd → Bool) (mounts loops : List String)
    (s : SysState) :
    cleanup_exec fail mounts loops s
      = (cleanup_cmds mounts loops).foldl (execCmdB fail) s
    ∧ (fail .rmWorkCmd = false →
        (cleanup_exec fail mounts loops s).workPresent = false)
    ∧ (∀ m ∈ mounts, fail (.unmountCmd m) = false →
        m ∉ (cleanup_exec fail mounts loops s).mounted)
    ∧ (∀ l ∈ loops, fail (.detachCmd l) = false →
        l ∉ (cleanup_exec fail mounts loops s).attached)
    ∧ cleanup_exec (fun _ => false) mounts loops
        (cleanup_exec (fun _ => false) mounts loops s)
      = cleanup_exec (fun _ => false) mounts loops s := by
  refine ⟨?_, ?_, ?_, ?_, ?_⟩
  · rw [cleanup_exec, cleanup_cmds, List.foldl_append, List.foldl_append,
      List.foldl_map, List.foldl_map]
    rfl
  · intro hr
    show (execCmdB _ _ .rmWorkCmd).workPresent = false
    rw [execCmdB, hr]
    rfl
  · intro m hm hf
    simp only [cleanup_exec]
    have h1 : m ∉ (mounts.reverse.foldl
        (fun st x => execCmdB fail st (.unmountCmd x)) s).mounted :=
      unmount_foldl_removes fail mounts.reverse s m
        (List.mem_reverse.mpr hm) hf
    rw [execCmdB_rmWork_mounted, detach_foldl_mounted]
    exact h1
  · intro l hl hf
    simp only [cleanup_exec]
    have h1 : l ∉ (loops.reverse.foldl
        (fun st x => execCmdB fail st (.detachCmd x))
        (mounts.reverse.foldl
          (fun st x => execCmdB fail st (.unmountCmd x)) s)).attached :=
      detach_foldl_removes fail loops.reverse _ l
        (List.mem_reverse.mpr hl) hf
    rw [execCmdB_rmWork_attached]
    exact h1
  · rw [cleanup_exec_nofail_eq, cleanup_exec_nofail_eq]
    simp [sdiff_idem]

/-! ### Helper lemmas for the orchestrator trace -/

theorem subtree_touches_ne (out work : String) (j : Nat)
    (det : Option (Entry × Bool)) (i : Nat) (hij : j ≠ i) :
    ∀ a ∈ repack_subtree_steps out work j det, touchesPart a i = false := by
  intro a ha
  cases hd : det.isSome <;> simp [repack_subtree_steps, hd] at ha <;>
    rcases ha with rfl | rfl | rfl <;> simp [touchesPart, hij]

theorem root_touches_ne (out work : String) (det3 : Option (Entry × Bool))
    (i : Nat) (hi : (3 : Nat) ≠ i) :
    ∀ a ∈ repack_root_steps out work det3, touchesPart a i = false := by
  intro a ha
  rcases det3 with - | ⟨e, b⟩
  · simp [repack_root_steps] at ha
    rcases ha with rfl | rfl | rfl <;> simp [touchesPart, hi]
  · cases b <;>
    · simp [repack_root_steps] at ha
      rcases ha with rfl | rfl | rfl <;> simp [touchesPart, hi]

theorem var_steps_touches_ne (opts : RepackOptions) (env : RepackEnv)
    (out work : String) (i : Nat) (hi : (4 : Nat) ≠ i) :
    ∀ a ∈ repack_var_steps opts env out work, touchesPart a i = false := by
  intro a ha
  by_cases hiv : opts.include_var = true
  · by_cases hv : env.hasVar = true
    · simp only [repack_var_steps, hiv, hv, if_true] at ha
      exact subtree_touches_ne out work 4 env.det4 i hi a ha
    · simp [repack_var_steps, hiv, hv] at ha
      subst ha
      rfl
  · simp [repack_var_steps, hiv] at ha

theorem home_steps_touches_ne (opts : RepackOptions) (env : RepackEnv)
    (out work : String) (i : Nat) (hi : (5 : Nat) ≠ i) :
    ∀ a ∈ repack_home_steps opts env out work, touchesPart a i = false := by
  intro a ha
  by_cases hih : opts.include_home = true
  · by_cases hh : env.hasHome = true
    · simp only [repack_home_steps, hih, hh, if_true] at ha
      exact subtree_touches_ne out work 5 env.det5 i hi a ha
    · simp [repack_home_steps, hih, hh] at ha
      subst ha
      rfl
  · simp [repack_home_steps, hih] at ha

theorem var_steps_skip (opts : RepackOptions) (env : RepackEnv)
    (out work : String)
    (h : opts.include_var = false ∨ env.hasVar = false) :
    ∀ a ∈ repack_var_steps opts env out work, touchesPart a 4 = false := by
  intro a ha
  rcases h with h | h
  · simp [repack_var_steps, h] at ha
  · by_cases hiv : opts.include_var = true
    · simp [repack_var_steps, hiv, h] at ha
      subst ha
      rfl
    · simp [repack_var_steps, hiv] at ha

theorem home_steps_skip (opts : RepackOptions) (env : RepackEnv)
    (out work : String)
    (h : opts.include_home = false ∨ env.hasHome = false) :
    ∀ a ∈ repack_home_steps opts env out work, touchesPart a 5 = false := by
  intro a ha
  rcases h with h | h
  · simp [repack_home_steps, h] at ha
  · by_cases hih : opts.include_home = true
    · simp [repack_home_steps, hih, h] at ha
      subst ha
      rfl
    · simp [repack_home_steps, hih] at ha

theorem foldl_touch_frame (step : PartsState → Action → PartsState)
    (hstep : ∀ st a i, touchesPart a i = false → step st a i = st i)
    (l : List Action) (i : Nat) (ps : PartsState) :
    (∀ a ∈ l, touchesPart a i = false) → l.foldl step ps i = ps i := by
  induction l generalizing ps with
  | nil => intro _; rfl
  | cons a l ih =>
    intro hl
    rw [List.foldl_cons, ih (step ps a)
      (fun x hx => hl x (List.mem_cons_of_mem a hx))]
    exact hstep ps a i (hl a (List.mem_cons_self a l))

/-- C9 (witness): the finalizer evaluated on two mounts, one loop device
and a live working directory, with no step failing: both mounts are gone,
the loop device is gone, the directory is gone, and rerunning changes
nothing. -/
theorem C9_cleanup_witness :
    ("m1" ∉ (cleanup_exec (fun _ => false) ["m1", "m2"] ["loop0"]
        ⟨{"m1", "m2"}, {"loop0"}, true⟩).mounted)
    ∧ ("loop0" ∉ (cleanup_exec (fun _ => false) ["m1", "m2"] ["loop0"]
        ⟨{"m1", "m2"}, {"loop0"}, true⟩).attached)
    ∧ (cleanup_exec (fun _ => false) ["m1", "m2"] ["loop0"]
        ⟨{"m1", "m2"}, {"loop0"}, true⟩).workPresent = false :=
  ⟨(C9_cleanup (fun _ => false) ["m1", "m2"] ["loop0"]
      ⟨{"m1", "m2"}, {"loop0"}, true⟩).2.2.1 "m1" (by decide) (by rfl),
   (C9_cleanup (fun _ => false) ["m1", "m2"] ["loop0"]
      ⟨{"m1", "m2"}, {"loop0"}, true⟩).2.2.2.1 "loop0" (by decide) (by rfl),
   (C9_cleanup (fun _ => false) ["m1", "m2"] ["loop0"]
      ⟨{"m1", "m2"}, {"loop0"}, true⟩).2.1 (by rfl)⟩

/-- C8: when `include_var` is false or the source tree has no `var`
subtree, no action of the repack run resolves, mounts or writes partition
4, and any interpretation of the trace that leaves untouched partitions
unchanged leaves partition 4 byte-for-byte as in the base image (likewise
for `include_home`/`home` and partition 5); an enabled step whose subtree
is absent contributes a warning, and the run still reaches the final sync
step. -/
theorem C8_skip_untouched (opts : RepackOptions) (env : RepackEnv)
    (old out work : String) :
    ((opts.include_var = false ∨ env.hasVar = false) →
      (∀ a ∈ repack_trace opts env old out work, touchesPart a 4 = false)
      ∧ ∀ (step : PartsState → Action → PartsState),
          (∀ st a i, touchesPart a i = false → step st a i = st i) →
          ∀ ps : PartsState,
            (repack_trace opts env old out work).foldl step ps 4 = ps 4)
    ∧ ((opts.include_home = false ∨ env.hasHome = false) →
      (∀ a ∈ repack_trace opts env old out work, touchesPart a 5 = false)
      ∧ ∀ (step : PartsState → Action → PartsState),
          (∀ st a i, touchesPart a i = false → step st a i = st i) →
          ∀ ps : PartsState,
            (repack_trace opts env old out work).foldl step ps 5 = ps 5)
    ∧ (opts.include_var = true → env.hasVar = false →
        Action.warn "var tree not found"
          ∈ repack_trace opts env old out work)
    ∧ (opts.include_home = true → env.hasHome = false →
        Action.warn "home tree not found"
          ∈ repack_trace opts env old out work)
    ∧ Action.syncAll ∈ repack_trace opts env old out work := by
  have hmem4 : (opts.include_var = false ∨ env.hasVar = false) →
      ∀ a ∈ repack_trace opts env old out work, touchesPart a 4 = false := by
    intro h a ha
    simp only [repack_trace, List.mem_append, List.mem_cons,
      List.mem_singleton, List.not_mem_nil, or_false] at ha
    rcases ha with ((((rfl | rfl) | hr) | hv) | hh) | rfl
    · rfl
    · rfl
    · exact root_touches_ne out work env.det3 4 (by decide) a hr
    · exact var_steps_skip opts env out work h a hv
    · exact home_steps_touches_ne opts env out work 4 (by decide) a hh
    · rfl
  have hmem5 : (opts.include_home = false ∨ env.hasHome = false) →
      ∀ a ∈ repack_trace opts env old out work, touchesPart a 5 = false := by
    intro h a ha
    simp only [repack_trace, List.mem_append, List.mem_cons,
      List.mem_singleton, List.not_mem_nil, or_false] at ha
    rcases ha with ((((rfl | rfl) | hr) | hv) | hh) | rfl
    · rfl
    · rfl
    · exact root_touches_ne out work env.det3 5 (by decide) a hr
    · exact var_steps_touches_ne opts env out work 5 (by decide) a hv
    · exact home_steps_skip opts env out work h a hh
    · rfl
  refine ⟨fun h => ⟨hmem4 h,
      fun step hstep ps => foldl_touch_frame step hstep _ 4 ps (hmem4 h)⟩,
    fun h => ⟨hmem5 h,
      fun step hstep ps => foldl_touch_frame step hstep _ 5 ps (hmem5 h)⟩,
    ?_, ?_, ?_⟩
  · intro hiv hv
    simp [repack_trace, repack_var_steps, hiv, hv]
  · intro hih hh
    simp [repack_trace, repack_home_steps, hih, hh]
  · simp [repack_trace]

/-- C8 (witness): with `include_var` disabled and a source tree that lacks
`home` (but `include_home` enabled), no trace action touches partition 4
and the home step degenerates to a warning. -/
theorem C8_skip_untouched_witness :
    (∀ a ∈ repack_trace ⟨false, true⟩ ⟨none, none, none, true, false⟩
        "old.img" "out.img" "work", touchesPart a 4 = false)
    ∧ Action.warn "home tree not found"
        ∈ repack_trace ⟨false, true⟩ ⟨none, none, none, true, false⟩
          "old.img" "out.img" "work" :=
  ⟨((C8_skip_untouched ⟨false, true⟩ ⟨none, none, none, true, false⟩
      "old.img" "out.img" "work").1 (Or.inl rfl)).1,
   (C8_skip_untouched ⟨false, true⟩ ⟨none, none, none, true, false⟩
      "old.img" "out.img" "work").2.2.2.1 rfl rfl⟩

/-- Shape invariant of trace actions: the copy reads the old image and
writes the output path, every loop attach and partition operation names the
output image, and every artifact build names the working directory. -/
def actionOK (old out work : String) : Action → Prop
  | .copyImage s d => s = old ∧ d = out
  | .attachLoop img => img = out
  | .resolvePart img _ => img = out
  | .buildSquashfsArt w _ => w = work
  | .buildExtArt w _ => w = work
  | .replaceNested img _ => img = out
  | .wipeFill img _ => img = out
  | .warn _ => True
  | .syncAll => True

theorem subtree_actionOK (old out work : String) (j : Nat)
    (det : Option (Entry × Bool)) :
    ∀ a ∈ repack_subtree_steps out work j det, actionOK old out work a := by
  intro a ha
  cases hd : det.isSome <;> simp [repack_subtree_steps, hd] at ha <;>
    rcases ha with rfl | rfl | rfl <;> simp [actionOK]

theorem root_actionOK (old out work : String) (det3 : Option (Entry × Bool)) :
    ∀ a ∈ repack_root_steps out work det3, actionOK old out work a := by
  intro a ha
  rcases det3 with - | ⟨e, b⟩
  · simp [repack_root_steps] at ha
    rcases ha with rfl | rfl | rfl <;> simp [actionOK]
  · cases b <;>
    · simp [repack_root_steps] at ha
      rcases ha with rfl | rfl | rfl <;> simp [actionOK]

theorem var_actionOK (old out work : String) (opts : RepackOptions)
    (env : RepackEnv) :
    ∀ a ∈ repack_var_steps opts env out work, actionOK old out work a := by
  intro a ha
  by_cases hiv : opts.include_var = true
  · by_cases hv : env.hasVar = true
    · simp only [repack_var_steps, hiv, hv, if_true] at ha
      exact subtree_actionOK old out work 4 env.det4 a ha
    · simp [repack_var_steps, hiv, hv] at ha
      subst ha
      trivial
  · simp [repack_var_steps, hiv] at ha

theorem home_actionOK (old out work : String) (opts : RepackOptions)
    (env : RepackEnv) :
    ∀ a ∈ repack_home_steps opts env out work, actionOK old out work a := by
  intro a ha
  by_cases hih : opts.include_home = true
  · by_cases hh : env.hasHome = true
    · simp only [repack_home_steps, hih, hh, if_true] at ha
      exact subtree_actionOK old out work 5 env.det5 a ha
    · simp [repack_home_steps, hih, hh] at ha
      subst ha
      trivial
  · simp [repack_home_steps, hih] at ha

theorem repack_trace_actionOK (opts : RepackOptions) (env : RepackEnv)
    (old out work : String) :
    ∀ a ∈ repack_trace opts env old out work, actionOK old out work a := by
  intro a ha
  simp only [repack_trace, List.mem_append, List.mem_cons,
    List.mem_singleton, List.not_mem_nil, or_false] at ha
  rcases ha with ((((rfl | rfl) | hr) | hv) | hh) | rfl
  · exact ⟨rfl, rfl⟩
  · rfl
  · exact root_actionOK old out work env.det3 a hr
  · exact var_actionOK old out work opts env a hv
  · exact home_actionOK old out work opts env a hh
  · trivial

theorem foldl_paths_frame (p : String)
    (step : Part (List Nat) → Action → Part (List Nat))
    (hstep : ∀ st a, p ∉ pathsWritten a → step st a p = st p)
    (l : List Action) (st : Part (List Nat)) :
    (∀ a ∈ l, p ∉ pathsWritten a) → l.foldl step st p = st p := by
  induction l generalizing st with
  | nil => intro _; rfl
  | cons a l ih =>
    intro hl
    rw [List.foldl_cons, ih (step st a)
      (fun x hx => hl x (List.mem_cons_of_mem a hx))]
    exact hstep st a (hl a (List.mem_cons_self a l))

/-- C10: the repack run never writes to the input superimage: its first
action copies the old image to the output path, every loop attach names the
output copy only, no action of any (possibly truncated) run writes to the
old image's path, and under any interpretation of the actions that writes
only to each action's written paths, the old image's bytes after any prefix
of the run — successful or aborted — equal its bytes before. -/
theorem C10_input_image_untouched (opts : RepackOptions) (env : RepackEnv)
    (old out work : String) (hout : old ≠ out) (hwork : old ≠ work) :
    (repack_trace opts env old out work).head? = some (.copyImage old out)
    ∧ (∀ img, Action.attachLoop img ∈ repack_trace opts env old out work →
        img = out)
    ∧ (∀ a ∈ repack_trace opts env old out work, old ∉ pathsWritten a)
    ∧ (∀ (step : Part (List Nat) → Action → Part (List Nat)),
        (∀ st a, old ∉ pathsWritten a → step st a old = st old) →
        ∀ (st : Part (List Nat)) (n : Nat),
          ((repack_trace opts env old out work).take n).foldl step st old
            = st old) := by
  have hpaths : ∀ a ∈ repack_trace opts env old out work,
      old ∉ pathsWritten a := by
    intro a ha
    have hok := repack_trace_actionOK opts env old out work a ha
    cases a with
    | copyImage s d =>
      obtain ⟨-, rfl⟩ := hok
      simp [pathsWritten, hout]
    | attachLoop img => simp [pathsWritten]
    | resolvePart img i =>
      rw [hok]
      simp [pathsWritten, hout]
    | buildSquashfsArt w i =>
      rw [hok]
      simp [pathsWritten, hwork]
    | buildExtArt w i =>
      rw [hok]
      simp [pathsWritten, hwork]
    | replaceNested img i =>
      rw [hok]
      simp [pathsWritten, hout]
    | wipeFill img i =>
      rw [hok]
      simp [pathsWritten, hout]
    | warn m => simp [pathsWritten]
    | syncAll => simp [pathsWritten]
  refine ⟨rfl, ?_, hpaths, ?_⟩
  · intro img hmem
    exact repack_trace_actionOK opts env old out work _ hmem
  · intro step hstep st n
    exact foldl_paths_frame old step hstep _ st
      (fun a ha => hpaths a (List.take_subset n _ ha))

/-- C10 (witness): the preservation properties evaluated on a concrete run
(`old.img` → `out.img`, working directory `work`, all steps enabled,
direct-filesystem partitions). -/
theorem C10_input_image_untouched_witness :
    (repack_trace ⟨true, true⟩ ⟨none, none, none, true, true⟩
        "old.img" "out.img" "work").head?
      = some (.copyImage "old.img" "out.img")
    ∧ (∀ a ∈ repack_trace ⟨true, true⟩ ⟨none, none, none, true, true⟩
        "old.img" "out.img" "work", "old.img" ∉ pathsWritten a) :=
  ⟨(C10_input_image_untouched ⟨true, true⟩ ⟨none, none, none, true, true⟩
      "old.img" "out.img" "work" (by decide) (by decide)).1,
   (C10_input_image_untouched ⟨true, true⟩ ⟨none, none, none, true, true⟩
      "old.img" "out.img" "work" (by decide) (by decide)).2.2.1⟩

end SteamOS
